import Mathlib

/-!
Shallow embedding of the Predictify hybrid prediction-market contract
(`contracts/predictify-hybrid/src/lib.rs`) and verification of its
specification.

Modelling conventions:
- `Address` and `Symbol` are modelled as `Nat`; soroban `String` as Lean
  `String`; `u64`/`u32` ledger values as `Nat`; `i128` as `Int` with explicit
  range checks where overflow matters.
- soroban `Map` is modelled as an association list with set/get helpers.
  (The host map enumerates in key order; the claims verified here do not
  depend on enumeration order, only on the multiset of entries, except
  through ties in the vote tally, which no claim constrains.)
- Each contract entry point is a pure function of the ledger inputs
  (timestamp, sequence) and the loaded `Market`, returning
  `Except Trap …`: a `panic!`/`panic_with_error!` aborts the transaction
  before the final storage write, so an error result means no state change
  is persisted.
- Caller authentication (`require_auth`) is performed by the host: we model
  a single-invoker transaction in which `require_auth a` succeeds iff the
  invoking `caller` equals `a`, and its failure is the distinct trap
  `Trap.authFail` (a host auth failure, not a contract `Error`).
- The token transfer is an external collaborator (out of scope per the
  spec); its rejection aborts the operation with nothing persisted, which
  in this embedding is the same as the call never happening, so the
  embedded operations model the path on which the transfer is accepted.
-/

set_option maxRecDepth 4000

/-- Contract error codes, from the `Error` enum of the source. -/
inductive Error where
  | Unauthorized
  | MarketClosed
  | OracleUnavailable
  | InsufficientStake
  | MarketAlreadyResolved
  | InvalidOracleConfig
deriving DecidableEq, Repr

/-- How an aborted invocation failed: a contract error raised with
`panic_with_error!`, a plain `panic!` (no error code), or a host
authentication failure of `require_auth`. -/
inductive Trap where
  | err (e : Error)
  | panicOther
  | authFail
deriving DecidableEq, Repr

/-- Oracle providers, from the `OracleProvider` enum of the source. -/
inductive OracleProvider where
  | BandProtocol
  | DIA
  | Reflector
  | Pyth
deriving DecidableEq, Repr

/-- Oracle configuration, from the `OracleConfig` struct of the source. -/
structure OracleConfig where
  provider : OracleProvider
  feed_id : String
  threshold : Int
  comparison : String
deriving DecidableEq, Repr

/-- Replace-or-insert for an association list, mirroring soroban
`Map::set`: an existing binding for the key is replaced, otherwise a new
binding is added. -/
def mapSet {κ α : Type} [DecidableEq κ] : List (κ × α) → κ → α → List (κ × α)
  | [], k, v => [(k, v)]
  | (k', v') :: rest, k, v =>
      if k = k' then (k, v) :: rest else (k', v') :: mapSet rest k v

/-- Lookup in an association list, mirroring soroban `Map::get`. -/
def mapGet {κ α : Type} [DecidableEq κ] : List (κ × α) → κ → Option α
  | [], _ => none
  | (k', v') :: rest, k => if k = k' then some v' else mapGet rest k

/-- The persisted market record, from the `Market` struct of the source. -/
structure Market where
  admin : Nat
  question : String
  outcomes : List String
  end_time : Nat
  oracle_config : OracleConfig
  oracle_result : Option String
  votes : List (Nat × String)
  total_staked : Int
  dispute_stakes : List (Nat × Int)
deriving DecidableEq, Repr

/-- Largest `i128` value, `2^127 - 1`. -/
def i128Max : Int := 2 ^ 127 - 1

/-- Smallest `i128` value, `-2^127`. -/
def i128Min : Int := -(2 ^ 127)

/-- Modelled from the spec: the repository's build profile (which fixes
whether Rust `+` on `i128` traps or wraps on overflow) is not under `src/`;
the spec states stake accumulation is checked addition whose overflow is
fatal, not silently wrapped, so `i128` addition is modelled as failing
(`none`) when the mathematical sum leaves the `i128` range. -/
def i128CheckedAdd (a b : Int) : Option Int :=
  if a + b < i128Min ∨ i128Max < a + b then none else some (a + b)

/-- `create_market` from the source. `storedAdmin` is the value persisted
under the `"Admin"` key by `initialize`; the source function never reads
it — it only calls `require_auth` on the `admin` *argument* — so the
parameter is unused, which is exactly the behaviour under verification in
the authorization claim. On success the returned market is what the source
persists under the market id. -/
def create_market (_storedAdmin : Option Nat) (caller : Nat) (admin : Nat)
    (question : String) (outcomes : List String) (end_time : Nat)
    (oracle_config : OracleConfig) : Except Trap Market :=
  if caller ≠ admin then .error .authFail
  else
    .ok { admin := admin
          question := question
          outcomes := outcomes
          end_time := end_time
          oracle_config := oracle_config
          oracle_result := none
          votes := []
          total_staked := 0
          dispute_stakes := [] }

/-- `vote` from the source: after `user.require_auth()`, fails with
`MarketClosed` when `now ≥ end_time`, panics on an outcome not in the
market's outcome list, then (on the accepted-transfer path) records the
vote and adds `stake` to `total_staked` before persisting. -/
def vote (now : Nat) (caller : Nat) (user : Nat) (outcome : String)
    (stake : Int) (m : Market) : Except Trap Market :=
  if caller ≠ user then .error .authFail
  else if m.end_time ≤ now then .error (.err .MarketClosed)
  else if ¬ outcome ∈ m.outcomes then .error .panicOther
  else
    match i128CheckedAdd m.total_staked stake with
    | none => .error .panicOther
    | some t =>
        .ok { m with votes := mapSet m.votes user outcome, total_staked := t }

/-- The mock Pyth price feed from the source (`PythOracle::get_price`
always returns `Ok(26_000_00)`). -/
def pyth_get_price (_feed_id : String) : Except Error Int :=
  .ok 2600000

/-- The comparison chain of `fetch_oracle_result` from the source: `"gt"`,
`"lt"`, `"eq"` compare the price against the threshold and yield
`"yes"`/`"no"`; any other comparison string raises `InvalidOracleConfig`. -/
def outcomeFromPrice (comparison : String) (price threshold : Int) :
    Except Error String :=
  if comparison = "gt" then .ok (if price > threshold then "yes" else "no")
  else if comparison = "lt" then .ok (if price < threshold then "yes" else "no")
  else if comparison = "eq" then .ok (if price = threshold then "yes" else "no")
  else .error .InvalidOracleConfig

/-- `fetch_oracle_result` from the source: fails with
`MarketAlreadyResolved` when `oracle_result` is already set, with
`MarketClosed` before `end_time`, with `InvalidOracleConfig` for a
non-Pyth provider, then derives the outcome from the fetched price and the
configured threshold, stores it in `oracle_result` and returns it. -/
def fetch_oracle_result (now : Nat) (m : Market) :
    Except Trap (String × Market) :=
  if m.oracle_result.isSome then .error (.err .MarketAlreadyResolved)
  else if now < m.end_time then .error (.err .MarketClosed)
  else if m.oracle_config.provider ≠ OracleProvider.Pyth then
    .error (.err .InvalidOracleConfig)
  else
    match pyth_get_price m.oracle_config.feed_id with
    | .error e => .error (.err e)
    | .ok price =>
        match outcomeFromPrice m.oracle_config.comparison price
            m.oracle_config.threshold with
        | .error e => .error (.err e)
        | .ok outcome =>
            .ok (outcome, { m with oracle_result := some outcome })

/-- The 24-hour dispute extension of the source, in seconds. -/
def dispute_extension : Nat := 24 * 60 * 60

/-- The minimum dispute stake of the source, `10_0000000` (10 XLM in
stroops). -/
def min_stake : Int := 100000000

/-- The create-or-add dispute-stake update of `dispute_result` from the
source: an existing entry for the user is increased by `stake` (`i128`
addition, checked per the spec as in `i128CheckedAdd`), otherwise a new
entry holding `stake` is created. -/
def disputeStakesUpdate (stakes : List (Nat × Int)) (user : Nat)
    (stake : Int) : Option (List (Nat × Int)) :=
  match mapGet stakes user with
  | some existing =>
      match i128CheckedAdd existing stake with
      | none => none
      | some t => some (mapSet stakes user t)
  | none => some (mapSet stakes user stake)

/-- `dispute_result` from the source: after `user.require_auth()`, panics
before `end_time`, fails with `InsufficientStake` below the 10 XLM
minimum, then (on the accepted-transfer path) accumulates the stake into
`dispute_stakes` and extends `end_time` to `now + 24h` when the current
`end_time` is earlier than that target. -/
def dispute_result (now : Nat) (caller : Nat) (user : Nat) (stake : Int)
    (m : Market) : Except Trap Market :=
  if caller ≠ user then .error .authFail
  else if now < m.end_time then .error .panicOther
  else if stake < min_stake then .error (.err .InsufficientStake)
  else
    match disputeStakesUpdate m.dispute_stakes user stake with
    | none => .error .panicOther
    | some stakes =>
        .ok { m with
              dispute_stakes := stakes
              end_time :=
                if m.end_time < now + dispute_extension then
                  now + dispute_extension
                else m.end_time }

/-- The vote-count map of `resolve_market` from the source: one pass over
the `votes` map, incrementing a per-outcome counter (`u32` counts in the
source; `Nat` here, exact for fewer than `2^32` voters, and a soroban map
holds one vote per address). -/
def tallyVotes (votes : List (Nat × String)) : List (String × Nat) :=
  votes.foldl
    (fun acc p => mapSet acc p.2 ((mapGet acc p.2).getD 0 + 1)) []

/-- The consensus scan of `resolve_market` from the source: starting from
the oracle result with `max_votes = 0`, each outcome whose count strictly
exceeds the running maximum becomes the community result. Returns
`(community_result, max_votes)`. -/
def winnerScan (counts : List (String × Nat)) (oracle_result : String) :
    String × Nat :=
  counts.foldl
    (fun best p => if p.2 > best.2 then (p.1, p.2) else best)
    (oracle_result, 0)

/-- The total-vote fold of `resolve_market` from the source. -/
def totalVotes (counts : List (String × Nat)) : Nat :=
  counts.foldl (fun acc p => acc + p.2) 0

/-- The final-result computation of `resolve_market` from the source,
structured exactly as its `final_result` expression. -/
def resolveFinal (oracle_result : String) (votes : List (Nat × String))
    (timestamp sequence : Nat) : String :=
  let vote_counts := tallyVotes votes
  let ws := winnerScan vote_counts oracle_result
  if oracle_result = ws.1 then oracle_result
  else
    let total_votes := totalVotes vote_counts
    if total_votes = 0 then oracle_result
    else
      if ws.2 * 100 > total_votes * 50 ∧ total_votes ≥ 5 then
        if (timestamp + sequence) % 100 < 30 then ws.1 else oracle_result
      else oracle_result

/-- `resolve_market` from the source: fails with `MarketClosed` before
`end_time` and with `OracleUnavailable` when no oracle result is stored;
otherwise computes the blended final result from the stored oracle result,
the votes and the ledger `(timestamp, sequence)`, writes it back into
`oracle_result` and returns it. -/
def resolve_market (now : Nat) (sequence : Nat) (m : Market) :
    Except Trap (String × Market) :=
  if now < m.end_time then .error (.err .MarketClosed)
  else
    match m.oracle_result with
    | none => .error (.err .OracleUnavailable)
    | some oracle_result =>
        let final_result := resolveFinal oracle_result m.votes now sequence
        .ok (final_result, { m with oracle_result := some final_result })

/-- The resolution decision rule as the specification words it: the
vote-tally winner (defaulting to the oracle result when there are no
votes); if the winner equals the oracle result, that shared value;
otherwise, if total votes is zero, the oracle result; otherwise, if
`max_votes * 100 > total_votes * 50` and `total_votes ≥ 5`, the tally
winner when `(timestamp + sequence) % 100 < 30` and the oracle result
otherwise; otherwise the oracle result. -/
def specFinalOutcome (oracle_result : String) (votes : List (Nat × String))
    (timestamp sequence : Nat) : String :=
  let counts := tallyVotes votes
  let winner := (winnerScan counts oracle_result).1
  let max_votes := (winnerScan counts oracle_result).2
  let total_votes := totalVotes counts
  if winner = oracle_result then winner
  else if total_votes = 0 then oracle_result
  else if max_votes * 100 > total_votes * 50 ∧ total_votes ≥ 5 then
    if (timestamp + sequence) % 100 < 30 then winner else oracle_result
  else oracle_result

/-- One invocation against a market: the operation and its per-call
arguments (the per-call ledger timestamp is supplied separately). -/
inductive Op where
  | vote (caller user : Nat) (outcome : String) (stake : Int)
  | fetch
  | dispute (caller user : Nat) (stake : Int)
  | resolve (sequence : Nat)
deriving DecidableEq, Repr

/-- Dispatch one invocation at ledger time `now`. -/
def step (now : Nat) (op : Op) (m : Market) : Except Trap Market :=
  match op with
  | .vote caller user outcome stake => vote now caller user outcome stake m
  | .fetch => (fetch_oracle_result now m).map (fun r => r.2)
  | .dispute caller user stake => dispute_result now caller user stake m
  | .resolve sequence => (resolve_market now sequence m).map (fun r => r.2)

/-- Run a sequence of invocations; a trapped invocation persists nothing,
leaving the market unchanged. -/
def runOps : List (Nat × Op) → Market → Market
  | [], m => m
  | (now, op) :: rest, m =>
      match step now op m with
      | .ok m' => runOps rest m'
      | .error _ => runOps rest m

/-- Run a list of `vote` calls `(now, user, outcome, stake)`, requiring
every one of them to succeed (`none` as soon as one fails). -/
def runVotesOk : List (Nat × Nat × String × Int) → Market → Option Market
  | [], m => some m
  | (now, user, outcome, stake) :: rest, m =>
      match vote now user user outcome stake m with
      | .ok m' => runVotesOk rest m'
      | .error _ => none

/-- The stakes summed over a list of `vote` calls. -/
def sumStakes (calls : List (Nat × Nat × String × Int)) : Int :=
  (calls.map (fun c => c.2.2.2)).sum

/-- Inversion for `Except.map` landing on `ok`. -/
theorem except_map_ok {ε α β : Type} {f : α → β} {e : Except ε α} {b : β}
    (h : e.map f = .ok b) : ∃ a, e = .ok a ∧ f a = b := by
  cases e with
  | error e => simp [Except.map] at h
  | ok a => exact ⟨a, rfl, by simpa [Except.map] using h⟩

/-- `mapGet` after `mapSet`: the set key reads back the new value, any
other key is unaffected. -/
theorem mapGet_mapSet {κ α : Type} [DecidableEq κ]
    (l : List (κ × α)) (k k' : κ) (v : α) :
    mapGet (mapSet l k v) k' = if k' = k then some v else mapGet l k' := by
  induction l with
  | nil => by_cases h : k' = k <;> simp [mapSet, mapGet, h]
  | cons p rest ih =>
      obtain ⟨pk, pv⟩ := p
      by_cases hk : k = pk
      · subst hk
        by_cases h : k' = k <;> simp [mapSet, mapGet, h]
      · by_cases h : k' = pk
        · subst h
          have hne : ¬ k' = k := fun hh => hk hh.symm
          simp [mapSet, mapGet, hk, hne]
        · simp [mapSet, mapGet, hk, h, ih]

/-- Inversion for a successful `i128CheckedAdd`. -/
theorem i128CheckedAdd_ok {a b t : Int} (h : i128CheckedAdd a b = some t) :
    t = a + b ∧ i128Min ≤ a + b ∧ a + b ≤ i128Max := by
  unfold i128CheckedAdd at h
  split at h
  · simp at h
  · rename_i hc
    push_neg at hc
    injection h with h
    exact ⟨h.symm, hc.1, hc.2⟩

/-- Inversion for a successful `vote`. -/
theorem vote_ok_inv {now caller user : Nat} {outcome : String} {stake : Int}
    {m m' : Market} (h : vote now caller user outcome stake m = .ok m') :
    caller = user ∧ now < m.end_time ∧ outcome ∈ m.outcomes ∧
    m' = { m with votes := mapSet m.votes user outcome,
                  total_staked := m.total_staked + stake } ∧
    i128Min ≤ m.total_staked + stake ∧ m.total_staked + stake ≤ i128Max := by
  unfold vote at h
  split at h
  · simp at h
  · rename_i hauth
    split at h
    · simp at h
    · rename_i hclosed
      split at h
      · simp at h
      · rename_i hout
        split at h
        · simp at h
        · rename_i t hadd
          obtain ⟨ht, hmin, hmax⟩ := i128CheckedAdd_ok hadd
          simp only [Except.ok.injEq] at h
          refine ⟨not_not.mp (fun hc => hauth hc), not_le.mp hclosed,
            not_not.mp hout, ?_, hmin, hmax⟩
          rw [← h, ht]

/-- Inversion for a successful `fetch_oracle_result`. -/
theorem fetch_ok_inv {now : Nat} {m : Market} {res : String} {m' : Market}
    (h : fetch_oracle_result now m = .ok (res, m')) :
    m.oracle_result = none ∧ m.end_time ≤ now ∧
    m.oracle_config.provider = OracleProvider.Pyth ∧
    outcomeFromPrice m.oracle_config.comparison 2600000
      m.oracle_config.threshold = .ok res ∧
    m' = { m with oracle_result := some res } := by
  unfold fetch_oracle_result at h
  split at h
  · simp at h
  · rename_i hsome
    split at h
    · simp at h
    · rename_i hclosed
      split at h
      · simp at h
      · rename_i hprov
        split at h
        · simp at h
        · rename_i price hprice
          split at h
          · simp at h
          · rename_i outcome hout
            have hp : (2600000 : Int) = price := by
              have hprice' : Except.ok (ε := Error) (2600000 : Int) =
                  .ok price := hprice
              injection hprice'
            subst hp
            simp only [Except.ok.injEq, Prod.mk.injEq] at h
            obtain ⟨h1, h2⟩ := h
            exact ⟨Option.not_isSome_iff_eq_none.mp hsome, not_lt.mp hclosed,
              not_not.mp hprov, h1 ▸ hout, by rw [← h2, ← h1]⟩

/-- Inversion for a successful `disputeStakesUpdate`. -/
theorem disputeStakesUpdate_ok {stakes : List (Nat × Int)} {user : Nat}
    {stake : Int} {l : List (Nat × Int)}
    (h : disputeStakesUpdate stakes user stake = some l) :
    l = mapSet stakes user ((mapGet stakes user).getD 0 + stake) := by
  unfold disputeStakesUpdate at h
  split at h
  · rename_i existing hget
    split at h
    · simp at h
    · rename_i t hadd
      obtain ⟨ht, _, _⟩ := i128CheckedAdd_ok hadd
      injection h with h
      rw [hget, ← h, ht]
      simp
  · rename_i hget
    injection h with h
    rw [hget, ← h]
    simp

/-- Inversion for a successful `dispute_result`. -/
theorem dispute_ok_inv {now caller user : Nat} {stake : Int} {m m' : Market}
    (h : dispute_result now caller user stake m = .ok m') :
    caller = user ∧ m.end_time ≤ now ∧ min_stake ≤ stake ∧
    m' = { m with
           dispute_stakes := mapSet m.dispute_stakes user
             ((mapGet m.dispute_stakes user).getD 0 + stake)
           end_time :=
             if m.end_time < now + dispute_extension then
               now + dispute_extension
             else m.end_time } := by
  unfold dispute_result at h
  split at h
  · simp at h
  · rename_i hauth
    split at h
    · simp at h
    · rename_i hearly
      split at h
      · simp at h
      · rename_i hmin
        split at h
        · simp at h
        · rename_i stakes hupd
          simp only [Except.ok.injEq] at h
          refine ⟨not_not.mp (fun hc => hauth hc), not_lt.mp hearly,
            not_lt.mp hmin, ?_⟩
          rw [← h, disputeStakesUpdate_ok hupd]

/-- Inversion for a successful `resolve_market`. -/
theorem resolve_ok_inv {now seq : Nat} {m : Market} {res : String}
    {m' : Market} (h : resolve_market now seq m = .ok (res, m')) :
    m.end_time ≤ now ∧ ∃ r, m.oracle_result = some r ∧
      res = resolveFinal r m.votes now seq ∧
      m' = { m with oracle_result := some res } := by
  unfold resolve_market at h
  split at h
  · simp at h
  · rename_i hclosed
    split at h
    · simp at h
    · rename_i r hr
      simp only [Except.ok.injEq, Prod.mk.injEq] at h
      obtain ⟨h1, h2⟩ := h
      exact ⟨not_lt.mp hclosed, r, hr, h1.symm, by rw [← h2, ← h1]⟩

/-- The source's `final_result` computation agrees with the decision rule
as the specification words it. -/
theorem resolveFinal_eq_spec (r : String) (votes : List (Nat × String))
    (t s : Nat) : resolveFinal r votes t s = specFinalOutcome r votes t s := by
  unfold resolveFinal specFinalOutcome
  by_cases h : (winnerScan (tallyVotes votes) r).1 = r
  · simp [h]
  · have h' : ¬ r = (winnerScan (tallyVotes votes) r).1 := fun hh => h hh.symm
    simp [h, h']

/-- Running `resolve_market` on a market whose oracle result is stored and
whose end time has passed: it succeeds, returns the value of the decision
rule, and persists that value into `oracle_result`. -/
theorem resolve_market_run (now seq : Nat) (m : Market) (r : String)
    (hres : m.oracle_result = some r) (htime : m.end_time ≤ now) :
    resolve_market now seq m =
      .ok (specFinalOutcome r m.votes now seq,
           { m with oracle_result := some (specFinalOutcome r m.votes now seq) }) := by
  unfold resolve_market
  rw [if_neg (not_lt.mpr htime), hres]
  simp [resolveFinal_eq_spec]

/-- No successful invocation decreases `end_time`. -/
theorem step_end_time_mono {now : Nat} {op : Op} {m m' : Market}
    (h : step now op m = .ok m') : m.end_time ≤ m'.end_time := by
  cases op with
  | vote caller user outcome stake =>
      obtain ⟨-, -, -, hm, -, -⟩ := vote_ok_inv h
      rw [hm]
  | fetch =>
      obtain ⟨⟨res, m''⟩, he, hf⟩ := except_map_ok h
      obtain ⟨-, -, -, -, hm⟩ := fetch_ok_inv he
      rw [← hf, hm]
  | dispute caller user stake =>
      obtain ⟨-, hnow, -, hm⟩ := dispute_ok_inv h
      rw [hm]
      by_cases hext : m.end_time < now + dispute_extension
      · simp only [if_pos hext]
        exact le_of_lt hext
      · simp only [if_neg hext]
        exact le_refl _
  | resolve seq =>
      obtain ⟨⟨res, m''⟩, he, hf⟩ := except_map_ok h
      obtain ⟨-, r, -, -, hm⟩ := resolve_ok_inv he
      rw [← hf, hm]

/-- Over any invocation sequence, `end_time` is monotonically
non-decreasing. -/
theorem runOps_end_time_mono (ops : List (Nat × Op)) (m : Market) :
    m.end_time ≤ (runOps ops m).end_time := by
  induction ops generalizing m with
  | nil => exact le_refl _
  | cons p rest ih =>
      obtain ⟨now, op⟩ := p
      unfold runOps
      cases hs : step now op m with
      | ok m' => exact le_trans (step_end_time_mono hs) (ih m')
      | error e => exact ih m

/-- A trapped single invocation leaves the market unchanged. -/
theorem runOps_single_error {now : Nat} {op : Op} {m : Market} {e : Trap}
    (h : step now op m = .error e) : runOps [(now, op)] m = m := by
  unfold runOps
  rw [h]
  rfl

/-- Total staked after a run of successful votes is the starting total
plus the exact sum of the stakes. -/
theorem runVotesOk_total (calls : List (Nat × Nat × String × Int))
    (m m' : Market) (h : runVotesOk calls m = some m') :
    m'.total_staked = m.total_staked + sumStakes calls := by
  induction calls generalizing m with
  | nil =>
      unfold runVotesOk at h
      injection h with h
      rw [← h]
      simp [sumStakes]
  | cons c rest ih =>
      obtain ⟨now, user, outcome, stake⟩ := c
      unfold runVotesOk at h
      cases hv : vote now user user outcome stake m with
      | error e => rw [hv] at h; simp at h
      | ok m1 =>
          rw [hv] at h
          obtain ⟨-, -, -, hm1, -, -⟩ := vote_ok_inv hv
          have htot := ih m1 h
          rw [htot, hm1]
          show m.total_staked + stake + sumStakes rest = _
          have : sumStakes ((now, user, outcome, stake) :: rest) =
              stake + sumStakes rest := by simp [sumStakes]
          rw [this]
          ring

deriving instance DecidableEq for Except

/-- A concrete oracle configuration used by the concrete instances below. -/
def testConfig : OracleConfig :=
  { provider := .Pyth, feed_id := "BTC", threshold := 2600000,
    comparison := "gt" }

/-- A freshly created market (exactly what `create_market` persists). -/
def testMarket : Market :=
  { admin := 1, question := "q", outcomes := ["yes", "no"], end_time := 10,
    oracle_config := testConfig, oracle_result := none, votes := [],
    total_staked := 0, dispute_stakes := [] }

/-- A market with a stored oracle result and a 3-vs-2 community vote. -/
def mC1 : Market :=
  { testMarket with
    oracle_result := some "no"
    votes := [(2, "yes"), (3, "yes"), (4, "yes"), (5, "no"), (6, "no")] }

/-- `mC1` after its first successful resolution. -/
def mC1r : Market := { mC1 with oracle_result := some "yes" }

/-- `testMarket` after a successful 10 XLM dispute at time 10. -/
def mD : Market :=
  { testMarket with dispute_stakes := [(1, 100000000)], end_time := 86410 }

/-- Claim C1: for every market whose `oracle_result` is set and whose
`end_time` has passed, `resolve_market` returns the outcome given by the
decision rule `specFinalOutcome` of the stored oracle result, the votes
map and the time source — tally winner (defaulting to the oracle result
with no votes); the shared value when winner and oracle result agree; the
oracle result when total votes is zero; when
`max_votes * 100 > total_votes * 50` and `total_votes ≥ 5`, the winner if
`(timestamp + sequence) % 100 < 30` and the oracle result otherwise;
otherwise the oracle result — and writes that returned value into the
market's `oracle_result` field. -/
theorem claim1_resolve_decision_rule (m : Market) (now seq : Nat)
    (r : String) (hres : m.oracle_result = some r)
    (htime : m.end_time ≤ now) :
    resolve_market now seq m =
      .ok (specFinalOutcome r m.votes now seq,
           { m with
             oracle_result := some (specFinalOutcome r m.votes now seq) }) :=
  resolve_market_run now seq m r hres htime

/-- Witness for C1 at a concrete market: oracle says "no", five votes
split 3-2 for "yes", timestamp 10 and sequence 0. -/
theorem claim1_witness :
    resolve_market 10 0 mC1 =
      .ok (specFinalOutcome "no" mC1.votes 10 0,
           { mC1 with
             oracle_result := some (specFinalOutcome "no" mC1.votes 10 0) }) :=
  claim1_resolve_decision_rule mC1 10 0 "no" rfl (by decide)

/-- Claim C2 (the code at the failing input): `initialize` stored admin 1,
yet `create_market` invoked by caller 2 — who passes and authorizes
`admin := 2` — succeeds and persists a market instead of failing with
`Unauthorized`: the source authenticates only its `admin` argument and
never compares it against the stored admin. -/
theorem claim2_create_market_ignores_stored_admin :
    create_market (some 1) 2 2 "q" ["yes", "no"] 10 testConfig =
      .ok { admin := 2, question := "q", outcomes := ["yes", "no"],
            end_time := 10, oracle_config := testConfig,
            oracle_result := none, votes := [], total_staked := 0,
            dispute_stakes := [] } := by
  decide

/-- Claim C3: `oracle_result` goes `None → Some` at most once through
`fetch_oracle_result`: whenever it is already `Some`, the call fails with
`MarketAlreadyResolved` (hence persists nothing), and in particular a
second fetch after a successful first one always fails that way. -/
theorem claim3_fetch_at_most_once :
    (∀ (now : Nat) (m : Market) (r : String), m.oracle_result = some r →
      fetch_oracle_result now m = .error (.err .MarketAlreadyResolved)) ∧
    (∀ (now now2 : Nat) (m : Market) (res : String) (m' : Market),
      fetch_oracle_result now m = .ok (res, m') →
      fetch_oracle_result now2 m' = .error (.err .MarketAlreadyResolved)) := by
  constructor
  · intro now m r h
    unfold fetch_oracle_result
    rw [h]
    rfl
  · intro now now2 m res m' h
    obtain ⟨-, -, -, -, hm⟩ := fetch_ok_inv h
    subst hm
    rfl

/-- Witness for C3: a market whose result is already "yes", and a second
fetch right after a successful first fetch on the fresh market. -/
theorem claim3_witness :
    fetch_oracle_result 0 { testMarket with oracle_result := some "yes" } =
      .error (.err .MarketAlreadyResolved) ∧
    fetch_oracle_result 11 { testMarket with oracle_result := some "no" } =
      .error (.err .MarketAlreadyResolved) :=
  ⟨claim3_fetch_at_most_once.1 0
      { testMarket with oracle_result := some "yes" } "yes" rfl,
   claim3_fetch_at_most_once.2 10 11 testMarket "no"
      { testMarket with oracle_result := some "no" } (by decide)⟩

/-- Claim C4: `resolve_market` has no already-finalized guard distinct
from the oracle-result check: after one successful resolution stored
`res`, a second call at or after `end_time` does not fail — it succeeds
and recomputes the same decision rule with the previously stored blended
outcome `res` standing in as the oracle result (the same field holds both
the raw signal result and the finalized result). -/
theorem claim4_double_resolution (m : Market) (now seq now2 seq2 : Nat)
    (res : String) (m' : Market)
    (h : resolve_market now seq m = .ok (res, m'))
    (h2 : m'.end_time ≤ now2) :
    m'.oracle_result = some res ∧
    resolve_market now2 seq2 m' =
      .ok (specFinalOutcome res m'.votes now2 seq2,
           { m' with
             oracle_result := some (specFinalOutcome res m'.votes now2 seq2) }) := by
  obtain ⟨-, r, hr, -, hm⟩ := resolve_ok_inv h
  have hor : m'.oracle_result = some res := by rw [hm]
  exact ⟨hor, resolve_market_run now2 seq2 m' res hor h2⟩

/-- Witness for C4: resolving `mC1` at time 10 stores "yes"; resolving
again at time 12 succeeds and recomputes from "yes". -/
theorem claim4_witness :
    mC1r.oracle_result = some "yes" ∧
    resolve_market 12 3 mC1r =
      .ok (specFinalOutcome "yes" mC1r.votes 12 3,
           { mC1r with
             oracle_result := some (specFinalOutcome "yes" mC1r.votes 12 3) }) :=
  claim4_double_resolution mC1 10 0 12 3 "yes" mC1r (by decide) (by decide)

/-- Claim C5: `end_time` is monotonically non-decreasing across every
invocation sequence: a successful `dispute_result` moves `end_time` to
`now + 24h` exactly when the current `end_time` is earlier than that
target (and leaves it unchanged otherwise), and no operation ever
decreases `end_time`. -/
theorem claim5_end_time_monotone :
    (∀ (now caller user : Nat) (stake : Int) (m m' : Market),
      dispute_result now caller user stake m = .ok m' →
      m'.end_time = (if m.end_time < now + dispute_extension then
        now + dispute_extension else m.end_time) ∧
      m.end_time ≤ m'.end_time) ∧
    (∀ (ops : List (Nat × Op)) (m : Market),
      m.end_time ≤ (runOps ops m).end_time) := by
  constructor
  · intro now caller user stake m m' h
    obtain ⟨-, -, -, hm⟩ := dispute_ok_inv h
    refine ⟨by rw [hm], ?_⟩
    exact step_end_time_mono
      (show step now (Op.dispute caller user stake) m = .ok m' from h)
  · exact runOps_end_time_mono

/-- Witness for C5: a concrete successful dispute extends `end_time` from
10 to 86410, and a concrete one-dispute sequence never decreases it. -/
theorem claim5_witness :
    mD.end_time = (if testMarket.end_time < 10 + dispute_extension then
      10 + dispute_extension else testMarket.end_time) ∧
    testMarket.end_time ≤
      (runOps [(10, Op.dispute 1 1 100000000)] testMarket).end_time :=
  ⟨(claim5_end_time_monotone.1 10 1 1 100000000 testMarket mD (by decide)).1,
   claim5_end_time_monotone.2 [(10, Op.dispute 1 1 100000000)] testMarket⟩

/-- The two-vote call list used by the C6 witness. -/
def callsC6 : List (Nat × Nat × String × Int) := [(0, 2, "yes", 5), (1, 3, "no", 7)]

/-- `testMarket` after the two votes of `callsC6`. -/
def mC6 : Market :=
  { testMarket with votes := [(2, "yes"), (3, "no")], total_staked := 12 }

/-- `testMarket` with `total_staked` at the `i128` maximum. -/
def mBig : Market := { testMarket with total_staked := i128Max }

/-- Claim C6: after any sequence of successful `vote` calls on a freshly
created market (`total_staked = 0`), `total_staked` equals the exact
integer sum of the stake arguments; the addition is checked, so a stake
whose sum would exceed the `i128` limit cannot succeed (fails closed),
and such a failed call leaves the market unchanged. -/
theorem claim6_total_staked_exact_sum :
    (∀ (calls : List (Nat × Nat × String × Int)) (m m' : Market),
      m.total_staked = 0 → runVotesOk calls m = some m' →
      m'.total_staked = sumStakes calls) ∧
    (∀ (now user : Nat) (outcome : String) (stake : Int) (m : Market),
      i128Max < m.total_staked + stake →
      (∀ m', vote now user user outcome stake m ≠ .ok m') ∧
      runOps [(now, Op.vote user user outcome stake)] m = m) := by
  constructor
  · intro calls m m' h0 h
    rw [runVotesOk_total calls m m' h, h0, zero_add]
  · intro now user outcome stake m hover
    have hfail : ∀ m', vote now user user outcome stake m ≠ .ok m' := by
      intro m' hc
      obtain ⟨-, -, -, -, -, hmax⟩ := vote_ok_inv hc
      exact absurd hmax (not_le.mpr hover)
    refine ⟨hfail, ?_⟩
    cases hs : step now (Op.vote user user outcome stake) m with
    | ok m1 => exact absurd hs (hfail m1)
    | error e => exact runOps_single_error hs

/-- Witness for C6: two successful votes of stakes 5 and 7 reach exactly
12, and a vote on a market already holding the `i128` maximum leaves the
market unchanged. -/
theorem claim6_witness :
    mC6.total_staked = sumStakes callsC6 ∧
    runOps [(5, Op.vote 2 2 "yes" 1)] mBig = mBig :=
  ⟨claim6_total_staked_exact_sum.1 callsC6 testMarket mC6 rfl (by decide),
   (claim6_total_staked_exact_sum.2 5 2 "yes" 1 mBig (by decide)).2⟩

/-- `testMarket` after a vote with the negative stake `-1`. -/
def mNeg : Market :=
  { testMarket with votes := [(2, "yes")], total_staked := -1 }

/-- Counterexample to C7 as stated: `testMarket` is exactly what
`create_market` persists (reachable), yet `vote` accepts the non-positive
stake `-1` — the source has no positivity check on the vote stake — and
the resulting market's `total_staked` is negative. -/
theorem claim7_counterexample :
    create_market (some 1) 1 1 "q" ["yes", "no"] 10 testConfig =
      .ok testMarket ∧
    vote 0 2 2 "yes" (-1) testMarket = .ok mNeg ∧
    mNeg.total_staked < 0 := by
  refine ⟨by decide, by decide, by decide⟩

/-- Claim C7 as amended: `dispute_result` accepts only stakes at or above
the 10 XLM minimum (hence positive), and a successful dispute keeps every
`dispute_stakes` entry positive whenever all prior entries are positive;
`vote`, by contrast, performs no positivity check on its stake, so with
the transfer collaborator permitting the amount it accepts zero or
negative stakes and can leave `total_staked` negative. -/
theorem claim7_amended_dispute_stakes_positive :
    ∀ (now caller user : Nat) (stake : Int) (m m' : Market),
      dispute_result now caller user stake m = .ok m' →
      min_stake ≤ stake ∧ 0 < stake ∧
      ((∀ a v, mapGet m.dispute_stakes a = some v → 0 < v) →
        (∀ a v, mapGet m'.dispute_stakes a = some v → 0 < v)) := by
  intro now caller user stake m m' h
  obtain ⟨-, -, hmin, hm⟩ := dispute_ok_inv h
  have hpos : (0 : Int) < stake :=
    lt_of_lt_of_le (by norm_num [min_stake]) hmin
  refine ⟨hmin, hpos, ?_⟩
  intro hall a v hv
  simp only [hm] at hv
  rw [mapGet_mapSet] at hv
  by_cases ha : a = user
  · rw [if_pos ha] at hv
    injection hv with hv
    rw [← hv]
    cases hget : mapGet m.dispute_stakes user with
    | none => simpa [hget] using hpos
    | some w =>
        have hw := hall user w hget
        simp only [hget, Option.getD_some]
        positivity
  · rw [if_neg ha] at hv
    exact hall a v hv

/-- Witness for C7 as amended: the concrete successful dispute of 10 XLM
on the fresh market yields a positive entry. -/
theorem claim7_amended_witness : (0 : Int) < 100000000 := by
  have h := claim7_amended_dispute_stakes_positive 10 1 1 100000000
    testMarket mD (by decide)
  exact h.2.2 (fun a v hv => by simp [testMarket, mapGet] at hv)
    1 100000000 (by decide)

/-- Claim C8: a `vote` at a time at or after `end_time` fails with
`MarketClosed` whatever the chosen outcome (the closed check runs before
outcome validity), and the market state is unchanged. -/
theorem claim8_vote_closed (now user : Nat) (outcome : String) (stake : Int)
    (m : Market) (h : m.end_time ≤ now) :
    vote now user user outcome stake m = .error (.err .MarketClosed) ∧
    runOps [(now, Op.vote user user outcome stake)] m = m := by
  have hv : vote now user user outcome stake m =
      .error (.err .MarketClosed) := by
    unfold vote
    rw [if_neg (by simp : ¬ user ≠ user), if_pos h]
  exact ⟨hv, runOps_single_error
    (show step now (Op.vote user user outcome stake) m = .error _ from hv)⟩

/-- Witness for C8: at the close time, even a vote for the invalid
outcome "bogus" fails with `MarketClosed` and changes nothing. -/
theorem claim8_witness :
    vote 10 2 2 "bogus" 5 testMarket = .error (.err .MarketClosed) ∧
    runOps [(10, Op.vote 2 2 "bogus" 5)] testMarket = testMarket :=
  claim8_vote_closed 10 2 "bogus" 5 testMarket (by decide)

/-- Claim C9: a `dispute_result` call at or after `end_time` with a stake
strictly below the fixed minimum `10_0000000` fails with
`InsufficientStake` and leaves the market (its `dispute_stakes`
included) unchanged. -/
theorem claim9_dispute_below_minimum (now user : Nat) (stake : Int)
    (m : Market) (h : m.end_time ≤ now) (hs : stake < min_stake) :
    dispute_result now user user stake m = .error (.err .InsufficientStake) ∧
    runOps [(now, Op.dispute user user stake)] m = m := by
  have hd : dispute_result now user user stake m =
      .error (.err .InsufficientStake) := by
    unfold dispute_result
    rw [if_neg (by simp : ¬ user ≠ user), if_neg (not_lt.mpr h), if_pos hs]
  exact ⟨hd, runOps_single_error
    (show step now (Op.dispute user user stake) m = .error _ from hd)⟩

/-- Witness for C9: a dispute of one stroop less than the minimum at the
close time fails with `InsufficientStake` and changes nothing. -/
theorem claim9_witness :
    dispute_result 10 1 1 99999999 testMarket =
      .error (.err .InsufficientStake) ∧
    runOps [(10, Op.dispute 1 1 99999999)] testMarket = testMarket :=
  claim9_dispute_below_minimum 10 1 99999999 testMarket (by decide) (by decide)

/-- Claim C10: the comparison table of `fetch_oracle_result`: `"gt"`
yields "yes" iff value > threshold, `"lt"` yields "yes" iff value <
threshold, `"eq"` yields "yes" iff value = threshold, any other
comparison string fails with `InvalidOracleConfig`; `fetch_oracle_result`
surfaces exactly this computation applied to the fetched price (the mock
feed's 2600000); and in particular "gt" with threshold 2600000 and value
2600000 yields "no". -/
theorem claim10_comparison_table :
    (∀ (price threshold : Int),
      outcomeFromPrice "gt" price threshold =
        .ok (if price > threshold then "yes" else "no") ∧
      outcomeFromPrice "lt" price threshold =
        .ok (if price < threshold then "yes" else "no") ∧
      outcomeFromPrice "eq" price threshold =
        .ok (if price = threshold then "yes" else "no")) ∧
    (∀ (comparison : String) (price threshold : Int),
      comparison ≠ "gt" → comparison ≠ "lt" → comparison ≠ "eq" →
      outcomeFromPrice comparison price threshold =
        .error .InvalidOracleConfig) ∧
    (∀ (now : Nat) (m : Market) (res : String),
      m.oracle_result = none → m.end_time ≤ now →
      m.oracle_config.provider = OracleProvider.Pyth →
      outcomeFromPrice m.oracle_config.comparison 2600000
        m.oracle_config.threshold = .ok res →
      fetch_oracle_result now m =
        .ok (res, { m with oracle_result := some res })) ∧
    (∀ (now : Nat) (m : Market) (e : Error),
      m.oracle_result = none → m.end_time ≤ now →
      m.oracle_config.provider = OracleProvider.Pyth →
      outcomeFromPrice m.oracle_config.comparison 2600000
        m.oracle_config.threshold = .error e →
      fetch_oracle_result now m = .error (.err e)) ∧
    outcomeFromPrice "gt" 2600000 2600000 = .ok "no" := by
  refine ⟨?_, ?_, ?_, ?_, by decide⟩
  · intro price threshold
    refine ⟨rfl, ?_, ?_⟩ <;> simp [outcomeFromPrice]
  · intro comparison price threshold h1 h2 h3
    simp [outcomeFromPrice, h1, h2, h3]
  · intro now m res hnone htime hprov hout
    unfold fetch_oracle_result
    rw [hnone]
    simp only [Option.isSome_none, Bool.false_eq_true, if_false]
    rw [if_neg (not_lt.mpr htime),
      if_neg (by simp [hprov] : ¬ m.oracle_config.provider ≠ OracleProvider.Pyth)]
    simp only [pyth_get_price]
    rw [hout]
  · intro now m e hnone htime hprov hout
    unfold fetch_oracle_result
    rw [hnone]
    simp only [Option.isSome_none, Bool.false_eq_true, if_false]
    rw [if_neg (not_lt.mpr htime),
      if_neg (by simp [hprov] : ¬ m.oracle_config.provider ≠ OracleProvider.Pyth)]
    simp only [pyth_get_price]
    rw [hout]

/-- Witness for C10: the "lt" row at 5 < 7, a rejected comparison string,
and a full fetch on the fresh market hitting the 2600000-vs-2600000 "no"
case. -/
theorem claim10_witness :
    outcomeFromPrice "lt" 5 7 = .ok "yes" ∧
    outcomeFromPrice "between" 5 7 = .error .InvalidOracleConfig ∧
    fetch_oracle_result 10 testMarket =
      .ok ("no", { testMarket with oracle_result := some "no" }) := by
  refine ⟨?_, ?_, ?_⟩
  · have h := (claim10_comparison_table.1 5 7).2.1
    simpa using h
  · exact claim10_comparison_table.2.1 "between" 5 7
      (by decide) (by decide) (by decide)
  · exact claim10_comparison_table.2.2.1 10 testMarket "no" rfl (by decide)
      rfl (by decide)
